import Mathlib

/-!
Shallow embedding of the core pipeline of the Piper TTS service
(`src/main.py`): sentence segmentation (`split_into_sentences`),
per-sentence synthesis with error absorption (`synthesize_sentence`,
`generate_sentence_chunk`), the buffered endpoint (`text_to_speech`),
WAV container merging (`combine_wav_chunks`), the order semantics of
`asyncio.gather`, and the bounded thread-pool executor.

Text is modelled as `List Char`; byte payloads as `List Nat`.  The WAV
container (Python's external `wave` module) is modelled abstractly as a
self-describing container recording exactly the facts the code reads and
writes: channel count, sample width, frame rate, and raw frame bytes.
Python's `\s` / `str.strip` whitespace is modelled by the ASCII
whitespace set, which is all the claims exercise.
-/

/-- The ASCII whitespace characters recognised by the model of `\s` and
`str.strip` (space, tab, newline, carriage return, vertical tab, form feed). -/
def isSpaceP (c : Char) : Bool :=
  c = ' ' || c = '\t' || c = '\n' || c = '\r' || c = '\x0b' || c = '\x0c'

/-- Sentence-terminal punctuation in the split pattern of
`split_into_sentences` (src/main.py line 371): `.`, `!`, `?`. -/
def isTerminalP (c : Char) : Bool :=
  c = '.' || c = '!' || c = '?'

/-- ASCII upper-case letter, the regex character class `[A-Z]` at
src/main.py line 371. -/
def isAsciiUpper (c : Char) : Bool :=
  ('A' ≤ c) && (c ≤ 'Z')

/-- Whether `pat` matches at the front of `s` (model of substring match
at the current scan position of `str.replace`). -/
def isPre : List Char → List Char → Bool
  | [], _ => true
  | _ :: _, [] => false
  | p :: ps, c :: cs => p == c && isPre ps cs

/-- Whether `pat` occurs somewhere inside `s`. -/
def occursIn (pat : List Char) : List Char → Bool
  | [] => isPre pat []
  | c :: rest => isPre pat (c :: rest) || occursIn pat rest

/-- Worker for `replaceAll`.  The counter skips the remainder of a match
that was already replaced, so that the recursion is structural on the
scanned list and all matches are non-overlapping and left-to-right, as
with Python's `str.replace`. -/
def replAllGo (pat rep : List Char) : List Char → Nat → List Char
  | [], _ => []
  | _ :: rest, Nat.succ k => replAllGo pat rep rest k
  | c :: rest, 0 =>
    if isPre pat (c :: rest) then
      rep ++ replAllGo pat rep rest (pat.length - 1)
    else
      c :: replAllGo pat rep rest 0

/-- Model of Python's `s.replace(pat, rep)`: replace every
non-overlapping occurrence of `pat` in `s`, scanning left to right. -/
def replaceAll (s pat rep : List Char) : List Char :=
  replAllGo pat rep s 0

/-- Model of Python's `str.strip()`: drop whitespace from both ends. -/
def pyStrip (s : List Char) : List Char :=
  (((s.dropWhile isSpaceP).reverse).dropWhile isSpaceP).reverse

/-- The abbreviation list of `split_into_sentences`
(src/main.py line 364): `['Mr', 'Mrs', 'Dr', 'Prof', 'Sr', 'Jr', 'vs',
'etc', 'e.g', 'i.e']`. -/
def abbreviations : List (List Char) :=
  [['M','r'], ['M','r','s'], ['D','r'], ['P','r','o','f'], ['S','r'],
   ['J','r'], ['v','s'], ['e','t','c'], ['e','.','g'], ['i','.','e']]

/-- The decimal digit characters, used to spell the placeholder index. -/
def digitChars : List Char :=
  ['0','1','2','3','4','5','6','7','8','9']

/-- The digit character of index `i` (indices run 0..9, one per
abbreviation). -/
def digitOfIdx (i : Nat) : Char :=
  digitChars.getD i '0'

/-- The placeholder token `__ABBR{i}__` of `split_into_sentences`
(src/main.py line 368). -/
def placeholderTok (i : Nat) : List Char :=
  ['_','_','A','B','B','R', digitOfIdx i, '_','_']

/-- Protection phase of `split_into_sentences` (src/main.py lines
367-368): for each abbreviation in order, replace `abbr.` by
`__ABBR{i}__`. -/
def protectText (text : List Char) : List Char :=
  abbreviations.enum.foldl
    (fun t p => replaceAll t (p.2 ++ ['.']) (placeholderTok p.1)) text

/-- Restoration phase of `split_into_sentences` (src/main.py lines
376-377): for each abbreviation in order, replace `__ABBR{i}__` by
`abbr.`. -/
def restoreText (s : List Char) : List Char :=
  abbreviations.enum.foldl
    (fun t p => replaceAll t (placeholderTok p.1) (p.2 ++ ['.'])) s

/-- Whether the regex `(?<=[.!?])\s+(?=[A-Z])` matches immediately after
the current (terminal) character: the rest of the input starts with a
whitespace run whose first following character is an ASCII upper-case
letter. -/
def needSplit (l : List Char) : Bool :=
  match l with
  | [] => false
  | c :: _ =>
    isSpaceP c &&
      (match l.dropWhile isSpaceP with
       | [] => false
       | u :: _ => isAsciiUpper u)

/-- Scanner for `re.split(r'(?<=[.!?])\s+(?=[A-Z])', text)`.  `acc` is
the reversed current segment; the Bool flag is true while skipping the
whitespace consumed by a match. -/
def splitCoreGo : List Char → List Char → Bool → List (List Char)
  | [], acc, _ => [acc.reverse]
  | c :: rest, acc, true =>
    if isSpaceP c then splitCoreGo rest acc true
    else splitCoreGo rest (c :: acc) false
  | c :: rest, acc, false =>
    if isTerminalP c && needSplit rest then
      (c :: acc).reverse :: splitCoreGo rest [] true
    else splitCoreGo rest (c :: acc) false

/-- Embedding of `split_into_sentences` (src/main.py lines 357-380):
protect abbreviations, split on sentence boundaries, restore
abbreviations in each raw sentence, strip it, and drop empty results. -/
def split_into_sentences (text : List Char) : List (List Char) :=
  let raw := splitCoreGo (protectText text) [] false
  (raw.map (fun s => pyStrip (restoreText s))).filter (fun s => !s.isEmpty)

/-- The PCM facts `combine_wav_chunks` reads from a parsed container:
channel count, sample width, frame rate (src/main.py lines 417-419). -/
structure WavParams where
  nchannels : Nat
  sampwidth : Nat
  framerate : Nat
deriving DecidableEq, Repr

/-- A parsed WAV container: its format parameters and raw frame bytes. -/
structure WavFile where
  params : WavParams
  frames : List Nat
deriving DecidableEq, Repr

/-- Serialise a container.  The header records a fixed magic, the three
format fields, and the frame count, mirroring what the `wave` module
writes (header plus frames, with the frame count patched on close). -/
def writeWav (w : WavFile) : List Nat :=
  82 :: 73 :: 70 :: 70 :: w.params.nchannels :: w.params.sampwidth ::
    w.params.framerate :: w.frames.length :: w.frames

/-- Parse a container; `none` models `wave.open` raising on a payload
that is not a well-formed container. -/
def parseWav : List Nat → Option WavFile
  | 82 :: 73 :: 70 :: 70 :: c :: s :: r :: n :: rest =>
    if rest.length = n then some ⟨⟨c, s, r⟩, rest⟩ else none
  | _ => none

/-- Per-chunk body of the merge loop (src/main.py lines 412-426): a
chunk that fails to parse contributes nothing (its error is caught and
the loop continues); a chunk whose three format fields differ from the
reference params is skipped; otherwise its raw frames are contributed. -/
def chunkFrames (p : WavParams) (c : List Nat) : List Nat :=
  match parseWav c with
  | none => []
  | some w => if w.params = p then w.frames else []

/-- Embedding of `combine_wav_chunks` (src/main.py lines 383-433): empty
input yields empty bytes; a single chunk is returned unchanged; else the
first chunk is parsed for reference params (falling back to the first
chunk's raw bytes if it cannot be parsed) and every compatible chunk's
frames are concatenated in input order under a fresh header. -/
def combine_wav_chunks (chunks : List (List Nat)) : List Nat :=
  match chunks with
  | [] => []
  | [c] => c
  | c0 :: rest =>
    match parseWav c0 with
    | none => c0
    | some w0 =>
      writeWav ⟨w0.params, ((c0 :: rest).map (chunkFrames w0.params)).flatten⟩

/-- The synthesis capability consumed by the core: one sentence in,
either audio bytes or a raised error. -/
def SynthPort : Type :=
  List Char → Except (List Char) (List Nat)

/-- Embedding of `synthesize_sentence` (src/main.py lines 185-201): any
exception raised by the synthesis call is caught and converted to `None`
for that sentence only.  The loaded voice model is abstracted as the
`port` argument. -/
def synthesize_sentence (port : SynthPort) (s : List Char) : Option (List Nat) :=
  match port s with
  | Except.ok b => some b
  | Except.error _ => none

/-- Embedding of `generate_sentence_chunk` (src/main.py lines 204-229):
a blank sentence yields `None` without calling the port; otherwise the
synthesis runs (in the pool) and its caught-error result is returned.
The `voice_model is None` guard is outside this model: the endpoint has
already rejected the request with 503 in that case. -/
def generate_sentence_chunk (port : SynthPort) (s : List Char) : Option (List Nat) :=
  if pyStrip s = [] then none else synthesize_sentence port s

/-- The task list of the buffered endpoint (src/main.py line 323): one
task per non-blank sentence, in sentence order. -/
def tts_tasks (text : List Char) : List (List Char) :=
  (split_into_sentences text).filter (fun s => !(pyStrip s).isEmpty)

/-- Python truthiness of a chunk result, the filter `if chunk` at
src/main.py line 327: both an absent result (`None`) and an empty bytes
payload (`b""`) are falsy and are dropped; a non-empty payload passes
through unchanged. -/
def truthyChunk (r : Option (List Nat)) : Option (List Nat) :=
  match r with
  | none => none
  | some bs => if bs.isEmpty then none else some bs

/-- Embedding of the buffered endpoint `text_to_speech` (src/main.py
lines 305-350): segment, synthesise every non-blank sentence, drop the
falsy results (`None` and empty bytes, the `if chunk` filter at line
327), answer 500 when nothing truthy remains (400 when there was no
text at all), and otherwise merge the surviving chunks in order. -/
def text_to_speech (port : SynthPort) (text : List Char) : Except Nat (List Nat) :=
  let sentences := split_into_sentences text
  if sentences.isEmpty then Except.error 400
  else
    let chunks := (tts_tasks text).map (generate_sentence_chunk port)
    let valid := chunks.filterMap truthyChunk
    if valid.isEmpty then Except.error 500
    else Except.ok (combine_wav_chunks valid)

/-- Completion model of `asyncio.gather` (src/main.py line 324): one
result slot per task; `order` lists task indices in the order their
coroutines complete, and each completion stores that task's result into
its own slot. -/
def fillSlots (results : List (Option (List Nat))) (order : List Nat) :
    List (Option (Option (List Nat))) :=
  order.foldl (fun slots i => slots.set i (some (results.getD i none)))
    (List.replicate results.length none)

/-- Buffered assembly (src/main.py lines 324-327): wait for every slot,
read the slots back in task order, and drop the falsy results (`None`
and empty bytes, the `if chunk` truthiness filter at line 327). -/
def bufferedAssemble (results : List (Option (List Nat))) (order : List Nat) :
    List (List Nat) :=
  ((fillSlots results order).map (fun s => s.getD none)).filterMap truthyChunk

/-- The thread-pool bound configured at src/main.py line 38:
`ThreadPoolExecutor(max_workers=4)`. -/
def executorMaxWorkers : Nat := 4

/-- Counting abstraction of the dispatch state: units not yet started,
synthesis calls in flight, and resolved units. -/
structure PoolState where
  pending : Nat
  running : Nat
  done : Nat
deriving DecidableEq, Repr

/-- Transitions of the bounded pool, modelling the semantics of
`ThreadPoolExecutor(max_workers=4)`: a queued unit may start only while
fewer than `executorMaxWorkers` calls are in flight, and an in-flight
call may resolve (successfully or not) at any time. -/
inductive PoolStep : PoolState → PoolState → Prop where
  | start (s : PoolState) (hp : 0 < s.pending) (hr : s.running < executorMaxWorkers) :
      PoolStep s ⟨s.pending - 1, s.running + 1, s.done⟩
  | finish (s : PoolState) (hr : 0 < s.running) :
      PoolStep s ⟨s.pending, s.running - 1, s.done + 1⟩

/-- States reachable from an initial dispatch state. -/
inductive PoolReach (init : PoolState) : PoolState → Prop where
  | refl : PoolReach init init
  | step {s t : PoolState} : PoolReach init s → PoolStep s t → PoolReach init t

/-! ### Lemmas about the container merge -/

lemma parseWav_writeWav (w : WavFile) : parseWav (writeWav w) = some w := by
  simp [parseWav, writeWav]

lemma chunkFrames_writeWav (p : WavParams) (w : WavFile) :
    chunkFrames p (writeWav w) = if w.params = p then w.frames else [] := by
  simp [chunkFrames, parseWav_writeWav]

lemma chunkFrames_writeWav_same (p : WavParams) (f : List Nat) :
    chunkFrames p (writeWav ⟨p, f⟩) = f := by
  simp [chunkFrames_writeWav]

lemma flatten_ite_filter (p0 : WavParams) :
    ∀ l : List WavFile,
      (l.map (fun w => if w.params = p0 then w.frames else [])).flatten
        = ((l.filter (fun w => w.params = p0)).map WavFile.frames).flatten
  | [] => rfl
  | w :: l => by
    by_cases h : w.params = p0 <;>
      simp [h, List.filter_cons, flatten_ite_filter p0 l]

lemma combine_singleton (c : List Nat) : combine_wav_chunks [c] = c := rfl

/-- Multi-chunk case of the merge whose first chunk parses: fresh header
from the first chunk's params, and the per-chunk contributed frames
concatenated in order. -/
lemma combine_cons_cons_parsed (a b : List Nat) (t : List (List Nat))
    (w0 : WavFile) (h : parseWav a = some w0) :
    combine_wav_chunks (a :: b :: t)
      = writeWav ⟨w0.params, ((a :: b :: t).map (chunkFrames w0.params)).flatten⟩ := by
  show (match parseWav a with
    | none => a
    | some v0 =>
      writeWav ⟨v0.params, ((a :: b :: t).map (chunkFrames v0.params)).flatten⟩) = _
  rw [h]

/-- Multi-chunk case of the merge whose first chunk does not parse: the
first chunk's raw bytes are returned unchanged. -/
lemma combine_cons_cons_unparsed (a b : List Nat) (t : List (List Nat))
    (h : parseWav a = none) :
    combine_wav_chunks (a :: b :: t) = a := by
  show (match parseWav a with
    | none => a
    | some v0 =>
      writeWav ⟨v0.params, ((a :: b :: t).map (chunkFrames v0.params)).flatten⟩) = _
  rw [h]

/-- General shape of a multi-chunk merge of well-formed containers: the
output carries the first chunk's params and the concatenated frames of
exactly the format-compatible chunks, in input order. -/
lemma combine_writeWav_general (w0 w1 : WavFile) (ws : List WavFile) :
    combine_wav_chunks ((w0 :: w1 :: ws).map writeWav)
      = writeWav ⟨w0.params,
          (((w0 :: w1 :: ws).filter (fun w => w.params = w0.params)).map
            WavFile.frames).flatten⟩ := by
  have hmap :
      ((w0 :: w1 :: ws).map writeWav).map (chunkFrames w0.params)
        = (w0 :: w1 :: ws).map
            (fun w => if w.params = w0.params then w.frames else []) := by
    rw [List.map_map]
    exact List.map_congr_left (fun w _ => chunkFrames_writeWav _ w)
  rw [List.map_cons, List.map_cons,
    combine_cons_cons_parsed _ _ _ w0 (parseWav_writeWav w0),
    ← List.map_cons writeWav w1, ← List.map_cons writeWav w0, hmap,
    flatten_ite_filter]

/-! ### Claims C2, C3, C4, C6: the container merge -/

/-- Claim C2: for every sequence of two or more WAV chunks of one common
format, the merge output carries the first chunk's format with the frame
bytes of every chunk concatenated in input order; and merging each chunk
individually first (a no-op on singletons) and then merging the results
yields the same output as merging them all at once. -/
theorem merge_uniform_format_concat (p : WavParams) (fs : List (List Nat))
    (h : 2 ≤ fs.length) :
    combine_wav_chunks (fs.map (fun f => writeWav ⟨p, f⟩))
        = writeWav ⟨p, fs.flatten⟩
      ∧ combine_wav_chunks
          ((fs.map (fun f => writeWav ⟨p, f⟩)).map
            (fun c => combine_wav_chunks [c]))
        = combine_wav_chunks (fs.map (fun f => writeWav ⟨p, f⟩)) := by
  constructor
  · match fs, h with
    | f0 :: f1 :: fs', _ =>
      have hid : List.map (chunkFrames p ∘ fun f => writeWav ⟨p, f⟩) fs' = fs' :=
        (List.map_congr_left (fun f _ => chunkFrames_writeWav_same p f)).trans
          (List.map_id fs')
      rw [List.map_cons, List.map_cons,
        combine_cons_cons_parsed _ _ _ ⟨p, f0⟩ (parseWav_writeWav _),
        List.map_cons, List.map_cons, List.map_map, hid,
        chunkFrames_writeWav_same, chunkFrames_writeWav_same]
  · have : (fs.map (fun f => writeWav ⟨p, f⟩)).map
        (fun c => combine_wav_chunks [c]) = fs.map (fun f => writeWav ⟨p, f⟩) := by
      rw [List.map_map]
      exact List.map_congr_left (fun f _ => combine_singleton _)
    rw [this]

/-- Witness for C2 at two concrete uniform chunks. -/
theorem merge_uniform_format_concat_witness :
    2 ≤ ([[5], [6]] : List (List Nat)).length
      ∧ (combine_wav_chunks
            (([[5], [6]] : List (List Nat)).map
              (fun f => writeWav ⟨⟨1, 2, 3⟩, f⟩))
          = writeWav ⟨⟨1, 2, 3⟩, ([[5], [6]] : List (List Nat)).flatten⟩
        ∧ combine_wav_chunks
            ((([[5], [6]] : List (List Nat)).map
                (fun f => writeWav ⟨⟨1, 2, 3⟩, f⟩)).map
              (fun c => combine_wav_chunks [c]))
          = combine_wav_chunks
              (([[5], [6]] : List (List Nat)).map
                (fun f => writeWav ⟨⟨1, 2, 3⟩, f⟩))) :=
  ⟨by decide, merge_uniform_format_concat ⟨1, 2, 3⟩ [[5], [6]] (by decide)⟩

/-- Claim C3: when some chunk `k` of a well-formed multi-chunk sequence
has a format differing from the first chunk's, the merge output is still
produced (never aborted): it keeps the first chunk's format, contains
exactly the frames of the format-compatible chunks in input order, and
chunk `k` is excluded rather than coerced. -/
theorem merge_skips_incompatible_chunk (w0 w1 : WavFile) (ws : List WavFile)
    (k : Nat) (hk : k < (w0 :: w1 :: ws).length)
    (hne : ((w0 :: w1 :: ws).get ⟨k, hk⟩).params ≠ w0.params) :
    combine_wav_chunks ((w0 :: w1 :: ws).map writeWav)
        = writeWav ⟨w0.params,
            (((w0 :: w1 :: ws).filter (fun w => w.params = w0.params)).map
              WavFile.frames).flatten⟩
      ∧ (w0 :: w1 :: ws).get ⟨k, hk⟩ ∉
          (w0 :: w1 :: ws).filter (fun w => w.params = w0.params) := by
  refine ⟨combine_writeWav_general w0 w1 ws, fun hmem => ?_⟩
  have := (List.mem_filter.mp hmem).2
  simp only [decide_eq_true_eq] at this
  exact hne this

/-- Witness for C3: the second of two chunks has a different channel
count and is dropped. -/
theorem merge_skips_incompatible_chunk_witness :
    (⟨⟨9, 2, 3⟩, [7]⟩ : WavFile).params ≠ (⟨⟨1, 2, 3⟩, [5]⟩ : WavFile).params
      ∧ (combine_wav_chunks
            (([⟨⟨1, 2, 3⟩, [5]⟩, ⟨⟨9, 2, 3⟩, [7]⟩] : List WavFile).map writeWav)
          = writeWav ⟨(⟨⟨1, 2, 3⟩, [5]⟩ : WavFile).params,
              ((([⟨⟨1, 2, 3⟩, [5]⟩, ⟨⟨9, 2, 3⟩, [7]⟩] : List WavFile).filter
                  (fun w => w.params = (⟨⟨1, 2, 3⟩, [5]⟩ : WavFile).params)).map
                WavFile.frames).flatten⟩
        ∧ ([⟨⟨1, 2, 3⟩, [5]⟩, ⟨⟨9, 2, 3⟩, [7]⟩] : List WavFile).get ⟨1, by decide⟩ ∉
            ([⟨⟨1, 2, 3⟩, [5]⟩, ⟨⟨9, 2, 3⟩, [7]⟩] : List WavFile).filter
              (fun w => w.params = (⟨⟨1, 2, 3⟩, [5]⟩ : WavFile).params)) :=
  ⟨by decide,
    merge_skips_incompatible_chunk ⟨⟨1, 2, 3⟩, [5]⟩ ⟨⟨9, 2, 3⟩, [7]⟩ [] 1
      (by decide) (by decide)⟩

/-- Claim C4: when the first chunk of a multi-chunk sequence cannot be
parsed as a container, the merge returns that first chunk's raw bytes
unchanged instead of failing. -/
theorem merge_falls_back_on_unparseable_first (c0 c1 : List Nat)
    (cs : List (List Nat)) (h : parseWav c0 = none) :
    combine_wav_chunks (c0 :: c1 :: cs) = c0 :=
  combine_cons_cons_unparsed c0 c1 cs h

/-- Witness for C4 at a first chunk with no container header. -/
theorem merge_falls_back_on_unparseable_first_witness :
    parseWav [9, 9] = none ∧ combine_wav_chunks [[9, 9], [1]] = [9, 9] :=
  ⟨by decide, merge_falls_back_on_unparseable_first [9, 9] [1] [] (by decide)⟩

/-- Claim C6: merging the empty chunk sequence yields the empty payload
(not an error), and merging a single chunk returns it unchanged, bytes
passed through verbatim. -/
theorem merge_empty_and_singleton :
    combine_wav_chunks [] = [] ∧ ∀ c : List Nat, combine_wav_chunks [c] = c :=
  ⟨rfl, combine_singleton⟩

/-! ### Lemmas about the gather/slot model -/

lemma fillAux_getElem? (results : List (Option (List Nat))) (order : List Nat) :
    ∀ (slots : List (Option (Option (List Nat)))) (i : Nat),
      (order.foldl (fun s j => s.set j (some (results.getD j none))) slots)[i]?
        = if i ∈ order ∧ i < slots.length
          then some (some (results.getD i none)) else slots[i]? := by
  induction order with
  | nil => intro slots i; simp
  | cons j order' ih =>
    intro slots i
    rw [List.foldl_cons, ih]
    by_cases hij : j = i
    · subst hij
      by_cases hlen : j < slots.length
      · by_cases hio : j ∈ order' <;>
          simp [List.length_set, hlen, hio, List.getElem?_set_eq hlen]
      · have hnone : slots[j]? = none := List.getElem?_eq_none (Nat.le_of_not_lt hlen)
        have hnone2 : (slots.set j (some (results.getD j none)))[j]? = none := by
          rw [List.getElem?_set]
          simp [hlen]
        by_cases hio : j ∈ order' <;>
          simp [List.length_set, hlen, hio, hnone, hnone2] <;> omega
    · have hji : ¬(i = j) := fun h => hij h.symm
      rw [List.getElem?_set_ne hij]
      by_cases hio : i ∈ order' <;> simp [List.length_set, hio, hji]

lemma fillSlots_length (results : List (Option (List Nat))) (order : List Nat) :
    (fillSlots results order).length = results.length := by
  unfold fillSlots
  have : ∀ (o : List Nat) (slots : List (Option (Option (List Nat)))),
      (o.foldl (fun s j => s.set j (some (results.getD j none))) slots).length
        = slots.length := by
    intro o
    induction o with
    | nil => intro slots; rfl
    | cons j o' ih => intro slots; rw [List.foldl_cons, ih, List.length_set]
  rw [this, List.length_replicate]

lemma fillSlots_read_back (results : List (Option (List Nat))) (order : List Nat)
    (hall : ∀ i, i < results.length → i ∈ order) :
    (fillSlots results order).map (fun s => s.getD none) = results := by
  apply List.ext_getElem?
  intro n
  rw [List.getElem?_map]
  by_cases hn : n < results.length
  · unfold fillSlots
    rw [fillAux_getElem?]
    simp only [List.length_replicate, hn, and_true, hall n hn, if_true,
      Option.map_some']
    rw [List.getElem?_eq_getElem hn, List.getD_eq_getElem?_getD,
      List.getElem?_eq_getElem hn]
    rfl
  · have h1 : results[n]? = none := List.getElem?_eq_none (Nat.le_of_not_lt hn)
    have h2 : (fillSlots results order)[n]? = none := by
      apply List.getElem?_eq_none
      rw [fillSlots_length]
      exact Nat.le_of_not_lt hn
    rw [h1, h2]
    rfl

/-! ### Claims C1, C9, C5: buffered assembly, the pool bound, errors -/

/-- Claim C1: for any non-empty task-result sequence and any completion
order that eventually resolves every task, buffered assembly waits for
all slots, discards the failed units, and yields the surviving chunks in
ascending original sentence order — so the merged output is the same as
if completions had arrived in order. -/
theorem buffered_assembly_order_independent (results : List (Option (List Nat)))
    (order : List Nat) (hne : results ≠ [])
    (hall : ∀ i, i < results.length → i ∈ order) :
    bufferedAssemble results order = results.filterMap truthyChunk
      ∧ combine_wav_chunks (bufferedAssemble results order)
          = combine_wav_chunks (results.filterMap truthyChunk) := by
  have hmain : bufferedAssemble results order = results.filterMap truthyChunk :=
    congrArg (List.filterMap truthyChunk) (fillSlots_read_back results order hall)
  exact ⟨hmain, congrArg combine_wav_chunks hmain⟩

/-- Witness for C1: four tasks — the second failed, the third produced
empty bytes — resolving in the order third, first, fourth, second. -/
theorem buffered_assembly_order_independent_witness :
    ([some [1], none, some [], some [2]] : List (Option (List Nat))) ≠ []
      ∧ (∀ i,
          i < ([some [1], none, some [], some [2]] : List (Option (List Nat))).length
            → i ∈ [2, 0, 3, 1])
      ∧ (bufferedAssemble [some [1], none, some [], some [2]] [2, 0, 3, 1]
            = ([some [1], none, some [], some [2]] :
                List (Option (List Nat))).filterMap truthyChunk
        ∧ combine_wav_chunks
              (bufferedAssemble [some [1], none, some [], some [2]] [2, 0, 3, 1])
            = combine_wav_chunks
                (([some [1], none, some [], some [2]] :
                    List (Option (List Nat))).filterMap truthyChunk)) :=
  ⟨by decide, by decide,
    buffered_assembly_order_independent [some [1], none, some [], some [2]]
      [2, 0, 3, 1] (by decide) (by decide)⟩

/-- Claim C9: dispatching `N ≥ L` units through the pool configured with
`max_workers = L = 4` never has more than `L` synthesis calls in flight:
every state reachable from the initial all-pending state keeps
`running ≤ executorMaxWorkers`. -/
theorem pool_concurrency_bounded (N : Nat) (hN : executorMaxWorkers ≤ N)
    (s : PoolState) (hreach : PoolReach ⟨N, 0, 0⟩ s) :
    s.running ≤ executorMaxWorkers := by
  induction hreach with
  | refl => exact Nat.zero_le _
  | step _ hstep ih =>
    cases hstep with
    | start hp hr => exact hr
    | finish hr => exact Nat.le_trans (Nat.sub_le _ _) ih

/-- Witness for C9: with five units, after starting one call the bound
still holds. -/
theorem pool_concurrency_bounded_witness :
    executorMaxWorkers ≤ 5
      ∧ (⟨4, 1, 0⟩ : PoolState).running ≤ executorMaxWorkers :=
  ⟨by decide,
    pool_concurrency_bounded 5 (by decide) ⟨4, 1, 0⟩
      (PoolReach.step PoolReach.refl
        (PoolStep.start ⟨5, 0, 0⟩ (by decide) (by decide)))⟩

/-- Claim C5: a synthesis error is absorbed into an absent result for
that unit alone — a task's result depends only on the port's behaviour
on that task's own sentence; the buffered request answers the
synthesis-unavailable error 500 exactly when no unit synthesised
successfully (produced a truthy, non-empty chunk — the `if chunk`
filter of line 327); and when at least one unit succeeded the request
returns the audio merged from the successful units. -/
theorem unit_failure_isolated_total_failure_surfaces (port port' : SynthPort)
    (text : List Char) (i : Nat) (s : List Char)
    (hne : split_into_sentences text ≠ [])
    (hi : (tts_tasks text)[i]? = some s) (hpp : port s = port' s) :
    ((tts_tasks text).map (generate_sentence_chunk port))[i]?
        = ((tts_tasks text).map (generate_sentence_chunk port'))[i]?
      ∧ (text_to_speech port text = Except.error 500
          ↔ ∀ u ∈ tts_tasks text,
              truthyChunk (generate_sentence_chunk port u) = none)
      ∧ ((∃ u ∈ tts_tasks text,
            truthyChunk (generate_sentence_chunk port u) ≠ none)
          → text_to_speech port text
              = Except.ok (combine_wav_chunks
                  (((tts_tasks text).map
                      (generate_sentence_chunk port)).filterMap truthyChunk))) := by
  have hiso : ((tts_tasks text).map (generate_sentence_chunk port))[i]?
      = ((tts_tasks text).map (generate_sentence_chunk port'))[i]? := by
    rw [List.getElem?_map, List.getElem?_map, hi]
    simp only [Option.map_some']
    unfold generate_sentence_chunk synthesize_sentence
    rw [hpp]
  have hempty : ((((tts_tasks text).map
        (generate_sentence_chunk port)).filterMap truthyChunk)
      = [] ↔ ∀ u ∈ tts_tasks text,
          truthyChunk (generate_sentence_chunk port u) = none) := by
    rw [List.filterMap_eq_nil_iff]
    constructor
    · intro h u hu
      exact h _ (List.mem_map_of_mem _ hu)
    · intro h a ha
      obtain ⟨u, hu, rfl⟩ := List.mem_map.mp ha
      exact h u hu
  refine ⟨hiso, ?_, ?_⟩
  · unfold text_to_speech
    rw [if_neg (by simpa [List.isEmpty_iff] using hne)]
    by_cases hv : (((tts_tasks text).map
        (generate_sentence_chunk port)).filterMap truthyChunk) = []
    · rw [if_pos (by simpa [List.isEmpty_iff] using hv)]
      simp only [true_iff]
      exact hempty.mp hv
    · rw [if_neg (by simpa [List.isEmpty_iff] using hv)]
      constructor
      · intro h
        exact absurd h (by simp)
      · intro h
        exact absurd (hempty.mpr h) hv
  · intro hex
    have hv : (((tts_tasks text).map
        (generate_sentence_chunk port)).filterMap truthyChunk) ≠ [] := by
      intro h
      obtain ⟨u, hu, hne'⟩ := hex
      exact hne' (hempty.mp h u hu)
    unfold text_to_speech
    rw [if_neg (by simpa [List.isEmpty_iff] using hne),
      if_neg (by simpa [List.isEmpty_iff] using hv)]

/-- Concrete port that always succeeds with a fixed payload. -/
def portOk : SynthPort :=
  fun _ => Except.ok [0]

/-- Witness for C5 at the one-sentence text `Hi.` under `portOk`. -/
theorem unit_failure_isolated_total_failure_surfaces_witness :
    split_into_sentences ("Hi.".toList) ≠ []
      ∧ (tts_tasks ("Hi.".toList))[0]? = some ("Hi.".toList)
      ∧ portOk ("Hi.".toList) = portOk ("Hi.".toList)
      ∧ (((tts_tasks ("Hi.".toList)).map (generate_sentence_chunk portOk))[0]?
            = ((tts_tasks ("Hi.".toList)).map (generate_sentence_chunk portOk))[0]?
        ∧ (text_to_speech portOk ("Hi.".toList) = Except.error 500
            ↔ ∀ u ∈ tts_tasks ("Hi.".toList),
                truthyChunk (generate_sentence_chunk portOk u) = none)
        ∧ ((∃ u ∈ tts_tasks ("Hi.".toList),
                truthyChunk (generate_sentence_chunk portOk u) ≠ none)
            → text_to_speech portOk ("Hi.".toList)
                = Except.ok (combine_wav_chunks
                    (((tts_tasks ("Hi.".toList)).map
                        (generate_sentence_chunk portOk)).filterMap truthyChunk)))) :=
  ⟨by decide, by decide, rfl,
    unit_failure_isolated_total_failure_surfaces portOk portOk ("Hi.".toList) 0
      ("Hi.".toList) (by decide) (by decide) rfl⟩

/-! ### Lemmas about `replaceAll`, `occursIn` and `pyStrip` -/

lemma mem_of_isPre : ∀ {pat s : List Char}, isPre pat s = true → ∀ x ∈ pat, x ∈ s
  | [], _, _, x, hx => absurd hx (List.not_mem_nil x)
  | _ :: _, [], h, _, _ => by simp [isPre] at h
  | p :: ps, c :: cs, h, x, hx => by
    rw [isPre, Bool.and_eq_true, beq_iff_eq] at h
    rcases List.mem_cons.mp hx with rfl | hx'
    · rw [h.1]
      exact List.mem_cons_self _ _
    · exact List.mem_cons_of_mem _ (mem_of_isPre h.2 x hx')

lemma isPre_length : ∀ {pat s : List Char}, isPre pat s = true → pat.length ≤ s.length
  | [], _, _ => Nat.zero_le _
  | _ :: _, [], h => by simp [isPre] at h
  | p :: ps, c :: cs, h => by
    rw [isPre, Bool.and_eq_true] at h
    exact Nat.succ_le_succ (isPre_length h.2)

lemma occursIn_eq_false_of_missing {pat : List Char} (c : Char) (hc : c ∈ pat) :
    ∀ {s : List Char}, c ∉ s → occursIn pat s = false
  | [], _ => by
    match pat, hc with
    | p :: ps, _ => rfl
  | d :: rest, hs => by
    rw [occursIn, Bool.or_eq_false_iff]
    refine ⟨?_, occursIn_eq_false_of_missing c hc (fun h => hs (List.mem_cons_of_mem _ h))⟩
    cases hP : isPre pat (d :: rest)
    · rfl
    · exact absurd (mem_of_isPre hP c hc) hs

lemma replAllGo_of_not_occurs {pat rep : List Char} :
    ∀ {s : List Char}, occursIn pat s = false → replAllGo pat rep s 0 = s
  | [], _ => rfl
  | c :: rest, h => by
    rw [occursIn, Bool.or_eq_false_iff] at h
    rw [replAllGo, if_neg (by rw [h.1]; exact Bool.false_ne_true),
      replAllGo_of_not_occurs h.2]

lemma replaceAll_of_not_occurs {s pat rep : List Char}
    (h : occursIn pat s = false) : replaceAll s pat rep = s :=
  replAllGo_of_not_occurs h

lemma replaceAll_of_missing_char {s pat rep : List Char} (c : Char)
    (hc : c ∈ pat) (hs : c ∉ s) : replaceAll s pat rep = s :=
  replaceAll_of_not_occurs (occursIn_eq_false_of_missing c hc hs)

lemma replaceAll_append_left (pat rep : List Char) (h0 : Char)
    (hpat : pat.head? = some h0) :
    ∀ (a s : List Char), h0 ∉ a →
      replaceAll (a ++ s) pat rep = a ++ replaceAll s pat rep
  | [], s, _ => rfl
  | c :: a', s, ha => by
    match pat, hpat with
    | p :: pt, hpat =>
      have hp : p = h0 := by simpa using hpat
      have hne : (p == c) = false := by
        rw [beq_eq_false_iff_ne, hp]
        intro h
        exact ha (h ▸ List.mem_cons_self _ _)
      show replAllGo (p :: pt) rep (c :: (a' ++ s)) 0 = _
      rw [replAllGo, if_neg (by rw [isPre, hne, Bool.false_and]; exact Bool.false_ne_true)]
      have hrec := replaceAll_append_left (p :: pt) rep h0 hpat a' s
        (fun h => ha (List.mem_cons_of_mem _ h))
      rw [show replAllGo (p :: pt) rep (a' ++ s) 0 = replaceAll (a' ++ s) (p :: pt) rep
          from rfl, hrec]
      rfl

lemma replAllGo_skip {pat rep : List Char} :
    ∀ (x b : List Char), replAllGo pat rep (x ++ b) x.length = replAllGo pat rep b 0
  | [], b => rfl
  | c :: x', b => by
    rw [List.cons_append, List.length_cons, replAllGo]
    exact replAllGo_skip x' b

lemma isPre_append_self : ∀ (p t : List Char), isPre p (p ++ t) = true
  | [], _ => rfl
  | c :: p', t => by
    rw [List.cons_append, isPre, beq_self_eq_true, Bool.true_and]
    exact isPre_append_self p' t

lemma replaceAll_head_match {rep : List Char} (p : Char) (pt b : List Char) :
    replaceAll ((p :: pt) ++ b) (p :: pt) rep = rep ++ replaceAll b (p :: pt) rep := by
  show replAllGo (p :: pt) rep ((p :: pt) ++ b) 0 = _
  rw [List.cons_append, replAllGo, if_pos (by
    rw [← List.cons_append]
    exact isPre_append_self (p :: pt) b)]
  have : (p :: pt).length - 1 = pt.length := rfl
  rw [this, replAllGo_skip pt b]
  rfl

lemma isPre_append_right_disjoint {b : List Char} :
    ∀ {pat : List Char}, (∀ c ∈ pat, c ∉ b) →
      ∀ (x : List Char), isPre pat (x ++ b) = isPre pat x
  | [], _, _ => rfl
  | p :: ps, hd, [] => by
    match b with
    | [] => rfl
    | d :: bs =>
      have hne : (p == d) = false := by
        rw [beq_eq_false_iff_ne]
        intro h
        exact hd p (List.mem_cons_self _ _) (h ▸ List.mem_cons_self _ _)
      show isPre (p :: ps) (d :: bs) = false
      rw [isPre, hne, Bool.false_and]
  | p :: ps, hd, c :: x' => by
    rw [List.cons_append, isPre, isPre,
      isPre_append_right_disjoint (fun e he => hd e (List.mem_cons_of_mem _ he)) x']

lemma replAllGo_append_right_disjoint {pat rep b : List Char}
    (hd : ∀ c ∈ pat, c ∉ b) (hpat : pat ≠ []) :
    ∀ (s : List Char) (k : Nat), k ≤ s.length →
      replAllGo pat rep (s ++ b) k = replAllGo pat rep s k ++ b
  | [], k, hk => by
    have hk0 : k = 0 := Nat.le_zero.mp hk
    subst hk0
    match pat, hpat with
    | p :: pt, _ =>
      rw [List.nil_append,
        replAllGo_of_not_occurs (occursIn_eq_false_of_missing p
          (List.mem_cons_self _ _) (hd p (List.mem_cons_self _ _)))]
      rfl
  | c :: s', Nat.succ k', hk => by
    rw [List.cons_append, replAllGo, replAllGo]
    exact replAllGo_append_right_disjoint hd hpat s' k' (Nat.le_of_succ_le_succ hk)
  | c :: s', 0, _ => by
    rw [List.cons_append, replAllGo, replAllGo, ← List.cons_append,
      isPre_append_right_disjoint hd (c :: s')]
    cases hP : isPre pat (c :: s')
    · rw [if_neg Bool.false_ne_true, if_neg Bool.false_ne_true, List.cons_append]
      rw [replAllGo_append_right_disjoint hd hpat s' 0 (Nat.zero_le _)]
    · rw [if_pos rfl, if_pos rfl, List.append_assoc]
      have hlen : pat.length - 1 ≤ s'.length := by
        have := isPre_length hP
        rw [List.length_cons] at this
        omega
      rw [replAllGo_append_right_disjoint hd hpat s' (pat.length - 1) hlen]

lemma replaceAll_append_right_disjoint {pat rep b : List Char}
    (hd : ∀ c ∈ pat, c ∉ b) (hpat : pat ≠ []) (s : List Char) :
    replaceAll (s ++ b) pat rep = replaceAll s pat rep ++ b :=
  replAllGo_append_right_disjoint hd hpat s 0 (Nat.zero_le _)

lemma foldl_eq_self {α β : Type} (f : α → β → α) (t : α) :
    ∀ (L : List β), (∀ p ∈ L, f t p = t) → L.foldl f t = t
  | [], _ => rfl
  | p :: L', h => by
    rw [List.foldl_cons, h p (List.mem_cons_self _ _)]
    exact foldl_eq_self f t L' (fun q hq => h q (List.mem_cons_of_mem _ hq))

/-! ### Lemmas about protection, restoration, splitting, stripping -/

lemma enum_abbr_fst_lt : ∀ p ∈ abbreviations.enum, p.1 < 10 := by decide

lemma placeholderTok_ne_nil (i : Nat) : placeholderTok i ≠ [] := by
  simp [placeholderTok]

lemma underscore_mem_placeholderTok (i : Nat) : '_' ∈ placeholderTok i :=
  List.mem_cons_self _ _

lemma protect_id (text : List Char) (hdot : ('.' : Char) ∉ text) :
    protectText text = text := by
  unfold protectText
  apply foldl_eq_self
  intro p _
  exact replaceAll_of_missing_char '.' (by simp) hdot

lemma restore_id_of_not_occurs (s : List Char)
    (h : ∀ i, i < 10 → occursIn (placeholderTok i) s = false) :
    restoreText s = s := by
  unfold restoreText
  apply foldl_eq_self
  intro p hp
  exact replaceAll_of_not_occurs (h p.1 (enum_abbr_fst_lt p hp))

lemma restore_id_of_no_underscore (s : List Char) (h : ('_' : Char) ∉ s) :
    restoreText s = s := by
  unfold restoreText
  apply foldl_eq_self
  intro p _
  exact replaceAll_of_missing_char '_' (underscore_mem_placeholderTok _) h

lemma restoreFold_append_left (a : List Char) (ha : ('_' : Char) ∉ a) :
    ∀ (L : List (Nat × List Char)) (s : List Char),
      L.foldl (fun t p => replaceAll t (placeholderTok p.1) (p.2 ++ ['.'])) (a ++ s)
        = a ++ L.foldl (fun t p => replaceAll t (placeholderTok p.1) (p.2 ++ ['.'])) s
  | [], s => rfl
  | p :: L', s => by
    rw [List.foldl_cons, List.foldl_cons,
      replaceAll_append_left (placeholderTok p.1) (p.2 ++ ['.']) '_' rfl a s ha]
    exact restoreFold_append_left a ha L' _

lemma restore_append_left (a s : List Char) (ha : ('_' : Char) ∉ a) :
    restoreText (a ++ s) = a ++ restoreText s :=
  restoreFold_append_left a ha abbreviations.enum s

lemma restoreFold_append_right (b : List Char) :
    ∀ (L : List (Nat × List Char)),
      (∀ p ∈ L, ∀ c ∈ placeholderTok p.1, c ∉ b) →
      ∀ (s : List Char),
        L.foldl (fun t p => replaceAll t (placeholderTok p.1) (p.2 ++ ['.'])) (s ++ b)
          = L.foldl (fun t p => replaceAll t (placeholderTok p.1) (p.2 ++ ['.'])) s ++ b
  | [], _, s => rfl
  | p :: L', h, s => by
    rw [List.foldl_cons, List.foldl_cons,
      replaceAll_append_right_disjoint (h p (List.mem_cons_self _ _))
        (placeholderTok_ne_nil p.1) s]
    exact restoreFold_append_right b L'
      (fun q hq => h q (List.mem_cons_of_mem _ hq)) _

lemma restore_append_right (s b : List Char)
    (hb : ∀ i, i < 10 → ∀ c ∈ placeholderTok i, c ∉ b) :
    restoreText (s ++ b) = restoreText s ++ b :=
  restoreFold_append_right b abbreviations.enum
    (fun p hp => hb p.1 (enum_abbr_fst_lt p hp)) s

lemma splitCoreGo_no_terminal :
    ∀ (s acc : List Char), (∀ c ∈ s, isTerminalP c = false) →
      splitCoreGo s acc false = [acc.reverse ++ s]
  | [], acc, _ => by simp [splitCoreGo]
  | c :: s', acc, h => by
    rw [splitCoreGo, if_neg (by
      rw [h c (List.mem_cons_self _ _), Bool.false_and]
      exact Bool.false_ne_true)]
    rw [splitCoreGo_no_terminal s' (c :: acc)
      (fun d hd => h d (List.mem_cons_of_mem _ hd))]
    simp

lemma splitCoreGo_append_no_terminal :
    ∀ (a s acc : List Char), (∀ c ∈ a, isTerminalP c = false) →
      splitCoreGo (a ++ s) acc false = splitCoreGo s (a.reverse ++ acc) false
  | [], s, acc, _ => by simp
  | c :: a', s, acc, h => by
    rw [List.cons_append, splitCoreGo, if_neg (by
      rw [h c (List.mem_cons_self _ _), Bool.false_and]
      exact Bool.false_ne_true)]
    rw [splitCoreGo_append_no_terminal a' s (c :: acc)
      (fun d hd => h d (List.mem_cons_of_mem _ hd))]
    congr 1
    simp

lemma dropWhile_eq_self_of_head (s : List Char)
    (h : ∀ c, s.head? = some c → isSpaceP c = false) :
    s.dropWhile isSpaceP = s := by
  cases s with
  | nil => rfl
  | cons c t =>
    rw [List.dropWhile_cons, if_neg]
    rw [h c rfl]
    exact Bool.false_ne_true

lemma pyStrip_eq_self (s : List Char)
    (hh : ∀ c, s.head? = some c → isSpaceP c = false)
    (hl : ∀ c, s.getLast? = some c → isSpaceP c = false) :
    pyStrip s = s := by
  unfold pyStrip
  rw [dropWhile_eq_self_of_head s hh,
    dropWhile_eq_self_of_head s.reverse
      (fun c hc => hl c (by rwa [List.head?_reverse] at hc)),
    List.reverse_reverse]

lemma mem_dropWhile_of_not {p : Char → Bool} (c : Char) (hc : p c = false) :
    ∀ {s : List Char}, c ∈ s → c ∈ s.dropWhile p
  | d :: t, h => by
    rw [List.dropWhile_cons]
    by_cases hd : p d = true
    · rw [if_pos hd]
      rcases List.mem_cons.mp h with rfl | h'
      · rw [hd] at hc
        exact absurd hc (by simp)
      · exact mem_dropWhile_of_not c hc h'
    · rw [if_neg hd]
      exact h

lemma mem_pyStrip (c : Char) (hc : isSpaceP c = false) {s : List Char}
    (h : c ∈ s) : c ∈ pyStrip s := by
  unfold pyStrip
  rw [List.mem_reverse]
  apply mem_dropWhile_of_not c hc
  rw [List.mem_reverse]
  exact mem_dropWhile_of_not c hc h

lemma mem_of_mem_pyStrip (c : Char) {s : List Char} (h : c ∈ pyStrip s) :
    c ∈ s := by
  unfold pyStrip at h
  rw [List.mem_reverse] at h
  have h1 := (List.dropWhile_sublist isSpaceP).subset h
  rw [List.mem_reverse] at h1
  exact (List.dropWhile_sublist isSpaceP).subset h1

/-! ### Claim C7: segmentation totality without terminal punctuation -/

/-- Counterexample to claim C7 as stated: the input `__ABBR0__` contains
no terminal punctuation, yet segmentation does not return the trimmed
input as its one unit — the restoration phase rewrites the literal
placeholder to `Mr.`. -/
theorem segmentation_no_terminal_counterexample :
    split_into_sentences ("__ABBR0__".toList) = ["Mr.".toList]
      ∧ split_into_sentences ("__ABBR0__".toList)
          ≠ [pyStrip ("__ABBR0__".toList)] := by
  constructor
  · decide
  · decide

/-- Claim C7 (amended): for every input containing no terminal
punctuation and no literal `__ABBR{i}__` placeholder token, segmentation
returns exactly one unit equal to the trimmed input when that is
non-empty, and the empty sequence for empty or whitespace-only input;
it is total (a Lean function) and never fails. -/
theorem segmentation_no_terminal_total (text : List Char)
    (hterm : ∀ c ∈ text, isTerminalP c = false)
    (hph : ∀ i, i < 10 → occursIn (placeholderTok i) text = false) :
    split_into_sentences text
      = if pyStrip text = [] then [] else [pyStrip text] := by
  have hdot : ('.' : Char) ∉ text := by
    intro h
    have := hterm '.' h
    rw [isTerminalP] at this
    simp at this
  unfold split_into_sentences
  rw [protect_id text hdot, splitCoreGo_no_terminal text [] hterm]
  simp only [List.reverse_nil, List.nil_append, List.map_cons, List.map_nil]
  rw [restore_id_of_not_occurs text hph]
  by_cases he : pyStrip text = []
  · rw [if_pos he, he]
    rfl
  · rw [if_neg he, List.filter_cons]
    simp [List.isEmpty_iff, he]

/-- Witness for the amended C7 on a text with neither terminal marks nor
placeholder tokens. -/
theorem segmentation_no_terminal_total_witness :
    (∀ c ∈ ("hello world".toList), isTerminalP c = false)
      ∧ (∀ i, i < 10 → occursIn (placeholderTok i) ("hello world".toList) = false)
      ∧ split_into_sentences ("hello world".toList)
          = if pyStrip ("hello world".toList) = []
            then [] else [pyStrip ("hello world".toList)] :=
  ⟨by decide, by decide,
    segmentation_no_terminal_total ("hello world".toList) (by decide) (by decide)⟩

/-! ### Character-class facts for the segmentation claims -/

/-- Lower-case ASCII letter (codepoints 97-122). -/
def isLowerAscii (c : Char) : Bool :=
  (97 ≤ c.toNat) && (c.toNat ≤ 122)

lemma lower_char_facts (c : Char) (h : isLowerAscii c = true) :
    isTerminalP c = false ∧ isSpaceP c = false ∧ c ≠ '_' := by
  have h1 : 97 ≤ c.toNat ∧ c.toNat ≤ 122 := by
    simpa [isLowerAscii] using h
  have hne : ∀ d : Char, d.toNat < 97 → c ≠ d := by
    intro d hd he
    subst he
    omega
  refine ⟨?_, ?_, hne '_' (by decide)⟩
  · rw [isTerminalP]
    simp [hne '.' (by decide), hne '!' (by decide), hne '?' (by decide)]
  · rw [isSpaceP]
    simp [hne ' ' (by decide), hne '\t' (by decide), hne '\n' (by decide),
      hne '\r' (by decide), hne '\x0b' (by decide), hne '\x0c' (by decide)]

lemma terminal_facts (t : Char) (ht : t = '!' ∨ t = '?') :
    isTerminalP t = true ∧ isSpaceP t = false ∧ t ≠ '_' ∧ t ≠ '.' := by
  rcases ht with rfl | rfl <;> exact ⟨by decide, by decide, by decide, by decide⟩

lemma not_terminal_ne_dot (c : Char) (h : isTerminalP c = false) : c ≠ '.' := by
  intro he
  subst he
  exact absurd h (by decide)

lemma getLast?_space_free (u : Char) :
    ∀ (b : List Char), isSpaceP u = false → (∀ c ∈ b, isSpaceP c = false) →
      ∀ c, (u :: b).getLast? = some c → isSpaceP c = false
  | [], hu, _, c, hc => by
    rw [show (u :: ([] : List Char)).getLast? = some u from rfl] at hc
    cases hc
    exact hu
  | d :: b', hu, hb, c, hc => by
    rw [List.getLast?_cons_cons] at hc
    exact getLast?_space_free d b' (hb d (List.mem_cons_self _ _))
      (fun e he => hb e (List.mem_cons_of_mem _ he)) c hc

lemma head?_space_free_append (a rest : List Char) (hane : a ≠ [])
    (haS : ∀ c ∈ a, isSpaceP c = false) :
    ∀ c, (a ++ rest).head? = some c → isSpaceP c = false := by
  cases a with
  | nil => exact absurd rfl hane
  | cons d a2 =>
    intro c hc
    rw [List.cons_append,
      show (d :: (a2 ++ rest)).head? = some d from rfl] at hc
    cases hc
    exact haS d (List.mem_cons_self _ _)

/-! ### Claim C8: the upper-case condition at a split point -/

/-- Counterexample to claim C8 as stated: a terminal mark followed by
whitespace and the non-ASCII upper-case letter `Д` is not split, while
the same text with the ASCII letter `D` is — the code's `[A-Z]` class is
ASCII-only, so unicode upper-case letters are not treated like ASCII
ones. -/
theorem upper_split_unicode_counterexample :
    split_into_sentences ("Hi! Дom".toList) = ["Hi! Дom".toList]
      ∧ split_into_sentences ("Hi! Dom".toList)
          = ["Hi!".toList, "Dom".toList] := by
  constructor
  · decide
  · decide

/-- Claim C8 (amended): a split after a terminal mark plus whitespace
happens exactly when the following run starts with an ASCII upper-case
letter `A`-`Z`; any other following character — including non-ASCII
upper-case letters — leaves the text unsplit. -/
theorem upper_split_requires_ascii (a b : List Char) (t u : Char)
    (hane : a ≠ []) (ha : ∀ c ∈ a, isLowerAscii c = true)
    (hb : ∀ c ∈ b, isLowerAscii c = true)
    (ht : t = '!' ∨ t = '?')
    (hus : isSpaceP u = false) (hut : isTerminalP u = false) (huu : u ≠ '_') :
    split_into_sentences (a ++ t :: ' ' :: u :: b)
      = if isAsciiUpper u then [a ++ [t], u :: b]
        else [a ++ t :: ' ' :: u :: b] := by
  obtain ⟨htT, htS, htU, htD⟩ := terminal_facts t ht
  have haT : ∀ c ∈ a, isTerminalP c = false :=
    fun c hc => (lower_char_facts c (ha c hc)).1
  have haS : ∀ c ∈ a, isSpaceP c = false :=
    fun c hc => (lower_char_facts c (ha c hc)).2.1
  have haU : ∀ c ∈ a, c ≠ '_' :=
    fun c hc => (lower_char_facts c (ha c hc)).2.2
  have hbT : ∀ c ∈ b, isTerminalP c = false :=
    fun c hc => (lower_char_facts c (hb c hc)).1
  have hbS : ∀ c ∈ b, isSpaceP c = false :=
    fun c hc => (lower_char_facts c (hb c hc)).2.1
  have hbU : ∀ c ∈ b, c ≠ '_' :=
    fun c hc => (lower_char_facts c (hb c hc)).2.2
  have hdot : ('.' : Char) ∉ (a ++ t :: ' ' :: u :: b) := by
    intro h
    rcases List.mem_append.mp h with h | h
    · exact absurd (haT '.' h) (by decide)
    · rcases List.mem_cons.mp h with h1 | h
      · exact htD h1.symm
      · rcases List.mem_cons.mp h with h1 | h
        · exact absurd h1 (by decide)
        · rcases List.mem_cons.mp h with h1 | h
          · exact (not_terminal_ne_dot u hut) h1.symm
          · exact absurd (hbT '.' h) (by decide)
  have hdw : (' ' :: u :: b).dropWhile isSpaceP = u :: b := by
    rw [List.dropWhile_cons, if_pos (by decide), List.dropWhile_cons,
      if_neg (by rw [hus]; exact Bool.false_ne_true)]
  have hns : needSplit (' ' :: u :: b) = isAsciiUpper u := by
    show (isSpaceP ' ' &&
        (match (' ' :: u :: b).dropWhile isSpaceP with
         | [] => false
         | u' :: _ => isAsciiUpper u')) = isAsciiUpper u
    rw [hdw]
    show (true && isAsciiUpper u) = isAsciiUpper u
    rw [Bool.true_and]
  have hstep : splitCoreGo (t :: ' ' :: u :: b) a.reverse false
      = if isTerminalP t && needSplit (' ' :: u :: b) then
          (t :: a.reverse).reverse :: splitCoreGo (' ' :: u :: b) [] true
        else splitCoreGo (' ' :: u :: b) (t :: a.reverse) false := rfl
  unfold split_into_sentences
  rw [protect_id _ hdot,
    splitCoreGo_append_no_terminal a (t :: ' ' :: u :: b) [] haT,
    List.append_nil, hstep, htT, hns, Bool.true_and]
  cases hU : isAsciiUpper u with
  | true =>
    rw [if_pos rfl, if_pos rfl]
    have hskip1 : splitCoreGo (' ' :: u :: b) [] true
        = splitCoreGo (u :: b) [] true := by
      show (if isSpaceP ' ' then splitCoreGo (u :: b) [] true
        else splitCoreGo (u :: b) [' '] false) = _
      rw [if_pos (by decide)]
    have hskip2 : splitCoreGo (u :: b) [] true = splitCoreGo b [u] false := by
      show (if isSpaceP u then splitCoreGo b [] true
        else splitCoreGo b [u] false) = _
      rw [if_neg (by rw [hus]; exact Bool.false_ne_true)]
    rw [hskip1, hskip2, splitCoreGo_no_terminal b [u] hbT,
      List.reverse_cons, List.reverse_reverse]
    have hru : restoreText (a ++ [t]) = a ++ [t] := by
      apply restore_id_of_no_underscore
      intro h
      rcases List.mem_append.mp h with h | h
      · exact haU '_' h rfl
      · rcases List.mem_cons.mp h with h1 | h1
        · exact htU h1.symm
        · exact absurd h1 (List.not_mem_nil _)
    have hsu : pyStrip (a ++ [t]) = a ++ [t] := by
      apply pyStrip_eq_self
      · exact head?_space_free_append a [t] hane haS
      · intro c hc
        rw [List.getLast?_concat] at hc
        cases hc
        exact htS
    have hrv : restoreText ([u].reverse ++ b) = [u].reverse ++ b := by
      apply restore_id_of_no_underscore
      intro h
      rcases List.mem_append.mp h with h | h
      · rcases List.mem_cons.mp h with h1 | h1
        · exact huu h1.symm
        · exact absurd h1 (List.not_mem_nil _)
      · exact hbU '_' h rfl
    have hsv : pyStrip ([u].reverse ++ b) = u :: b := by
      show pyStrip (u :: b) = u :: b
      apply pyStrip_eq_self
      · intro c hc
        rw [show (u :: b).head? = some u from rfl] at hc
        cases hc
        exact hus
      · exact getLast?_space_free u b hus hbS
    simp only [List.map_cons, List.map_nil]
    rw [hru, hsu, hrv, hsv, List.filter_cons, List.filter_cons, List.filter_nil]
    have h1 : (!(a ++ [t]).isEmpty) = true := by
      simp [List.isEmpty_iff]
    have h2 : (!(u :: b).isEmpty) = true := rfl
    rw [if_pos h1, if_pos h2]
  | false =>
    rw [if_neg Bool.false_ne_true, if_neg Bool.false_ne_true]
    have hall : ∀ c ∈ (' ' :: u :: b), isTerminalP c = false := by
      intro c hc
      rcases List.mem_cons.mp hc with rfl | hc
      · decide
      · rcases List.mem_cons.mp hc with rfl | hc
        · exact hut
        · exact hbT c hc
    rw [splitCoreGo_no_terminal (' ' :: u :: b) (t :: a.reverse) hall,
      List.reverse_cons, List.reverse_reverse]
    have heq : (a ++ [t]) ++ ' ' :: u :: b = a ++ t :: ' ' :: u :: b := by
      simp
    rw [heq]
    have hrw : restoreText (a ++ t :: ' ' :: u :: b) = a ++ t :: ' ' :: u :: b := by
      apply restore_id_of_no_underscore
      intro h
      rcases List.mem_append.mp h with h | h
      · exact haU '_' h rfl
      · rcases List.mem_cons.mp h with h1 | h
        · exact htU h1.symm
        · rcases List.mem_cons.mp h with h1 | h
          · exact absurd h1 (by decide)
          · rcases List.mem_cons.mp h with h1 | h
            · exact huu h1.symm
            · exact hbU '_' h rfl
    have hsw : pyStrip (a ++ t :: ' ' :: u :: b) = a ++ t :: ' ' :: u :: b := by
      apply pyStrip_eq_self
      · exact head?_space_free_append a (t :: ' ' :: u :: b) hane haS
      · intro c hc
        have hsplit : a ++ t :: ' ' :: u :: b = (a ++ [t, ' ']) ++ (u :: b) := by
          simp
        rw [hsplit, List.getLast?_append] at hc
        obtain ⟨x, hx⟩ := Option.isSome_iff_exists.mp
          (List.getLast?_isSome.mpr (List.cons_ne_nil u b))
        have hor : (some x).or ((a ++ [t, ' ']).getLast?) = some x := rfl
        rw [hx, hor] at hc
        have hsp := getLast?_space_free u b hus hbS x hx
        injection hc with hxc
        rwa [hxc] at hsp
    simp only [List.map_cons, List.map_nil]
    rw [hrw, hsw, List.filter_cons, List.filter_nil]
    have h1 : (!(a ++ t :: ' ' :: u :: b).isEmpty) = true := by
      simp [List.isEmpty_iff]
    rw [if_pos h1]

/-- Witness for the amended C8: both an ASCII upper-case continuation
(split) and a non-ASCII upper-case continuation (no split). -/
theorem upper_split_requires_ascii_witness :
    (("ok".toList : List Char) ≠ []
        ∧ (∀ c ∈ ("ok".toList : List Char), isLowerAscii c = true)
        ∧ (∀ c ∈ ("om".toList : List Char), isLowerAscii c = true)
        ∧ isSpaceP 'Д' = false ∧ isTerminalP 'Д' = false ∧ 'Д' ≠ '_'
        ∧ isSpaceP 'D' = false ∧ isTerminalP 'D' = false ∧ 'D' ≠ '_')
      ∧ split_into_sentences ("ok".toList ++ '!' :: ' ' :: 'Д' :: "om".toList)
          = (if isAsciiUpper 'Д' then [("ok".toList) ++ ['!'], 'Д' :: "om".toList]
             else [("ok".toList) ++ '!' :: ' ' :: 'Д' :: "om".toList])
      ∧ split_into_sentences ("ok".toList ++ '!' :: ' ' :: 'D' :: "om".toList)
          = (if isAsciiUpper 'D' then [("ok".toList) ++ ['!'], 'D' :: "om".toList]
             else [("ok".toList) ++ '!' :: ' ' :: 'D' :: "om".toList]) :=
  ⟨⟨by decide, by decide, by decide, by decide, by decide, by decide,
      by decide, by decide, by decide⟩,
    upper_split_requires_ascii ("ok".toList) ("om".toList) '!' 'Д'
      (by decide) (by decide) (by decide) (Or.inl rfl)
      (by decide) (by decide) (by decide),
    upper_split_requires_ascii ("ok".toList) ("om".toList) '!' 'D'
      (by decide) (by decide) (by decide) (Or.inl rfl)
      (by decide) (by decide) (by decide)⟩

/-! ### Claim C10: literal placeholder tokens collide with restoration -/

/-- Ordinary sentence characters: lower-case ASCII letters and spaces. -/
def safeChar (c : Char) : Bool :=
  isLowerAscii c || c = ' '

lemma safe_char_facts (c : Char) (h : safeChar c = true) :
    isTerminalP c = false ∧ c ≠ '_' ∧ c ≠ '.' := by
  rw [safeChar, Bool.or_eq_true] at h
  rcases h with h | h
  · obtain ⟨h1, _, h3⟩ := lower_char_facts c h
    exact ⟨h1, h3, not_terminal_ne_dot c h1⟩
  · have he : c = ' ' := by simpa using h
    subst he
    exact ⟨by decide, by decide, by decide⟩

lemma not_mem_of_safe (a : List Char) (ha : ∀ c ∈ a, safeChar c = true)
    (d : Char) (hd : safeChar d = false) : d ∉ a := by
  intro h
  rw [ha d h] at hd
  cases hd

lemma digitOfIdx_mem (i : Nat) (hi : i < 10) : digitOfIdx i ∈ digitChars := by
  interval_cases i <;> decide

lemma digit_char_props : ∀ d ∈ digitChars,
    safeChar d = false ∧ isTerminalP d = false ∧ d ≠ '_' ∧ d ≠ '.' := by
  decide

lemma placeholderTok_props (i : Nat) (hi : i < 10) :
    ∀ c ∈ placeholderTok i, safeChar c = false ∧ isTerminalP c = false ∧ c ≠ '.' := by
  have hdig := digit_char_props (digitOfIdx i) (digitOfIdx_mem i hi)
  intro c hc
  simp only [placeholderTok, List.mem_cons, List.not_mem_nil, or_false] at hc
  rcases hc with rfl | rfl | rfl | rfl | rfl | rfl | rfl | rfl | rfl
  · exact ⟨by decide, by decide, by decide⟩
  · exact ⟨by decide, by decide, by decide⟩
  · exact ⟨by decide, by decide, by decide⟩
  · exact ⟨by decide, by decide, by decide⟩
  · exact ⟨by decide, by decide, by decide⟩
  · exact ⟨by decide, by decide, by decide⟩
  · exact ⟨hdig.1, hdig.2.1, hdig.2.2.2⟩
  · exact ⟨by decide, by decide, by decide⟩
  · exact ⟨by decide, by decide, by decide⟩

lemma restore_tok (i : Nat) (hi : i < 10) :
    restoreText (placeholderTok i) = abbreviations.getD i [] ++ ['.'] := by
  interval_cases i <;> decide

lemma abbr_dot_no_underscore (i : Nat) (hi : i < 10) :
    ('_' : Char) ∉ (abbreviations.getD i [] ++ ['.']) := by
  interval_cases i <;> decide

/-- Claim C10: a literal `__ABBR{i}__` token in the input collides with
the protection placeholders — in any ordinary surrounding text the
emitted unit carries the corresponding abbreviation plus a period in the
token's place, so the segmenter does not preserve such inputs verbatim. -/
theorem placeholder_collision_replaces_token (i : Nat) (hi : i < 10)
    (a b : List Char) (ha : ∀ c ∈ a, safeChar c = true)
    (hb : ∀ c ∈ b, safeChar c = true) :
    split_into_sentences (a ++ placeholderTok i ++ b)
        = [pyStrip (a ++ (abbreviations.getD i [] ++ ['.']) ++ b)]
      ∧ split_into_sentences (a ++ placeholderTok i ++ b)
          ≠ [pyStrip (a ++ placeholderTok i ++ b)] := by
  have htokP := placeholderTok_props i hi
  have hdot : ('.' : Char) ∉ (a ++ placeholderTok i ++ b) := by
    intro h
    rcases List.mem_append.mp h with h | h
    · rcases List.mem_append.mp h with h | h
      · exact (safe_char_facts '.' (ha '.' h)).2.2 rfl
      · exact (htokP '.' h).2.2 rfl
    · exact (safe_char_facts '.' (hb '.' h)).2.2 rfl
  have hterm : ∀ c ∈ (a ++ placeholderTok i ++ b), isTerminalP c = false := by
    intro c hc
    rcases List.mem_append.mp hc with h | h
    · rcases List.mem_append.mp h with h | h
      · exact (safe_char_facts c (ha c h)).1
      · exact (htokP c h).2.1
    · exact (safe_char_facts c (hb c h)).1
  have hUa : ('_' : Char) ∉ a := not_mem_of_safe a ha '_' (by decide)
  have hdisj : ∀ j, j < 10 → ∀ c ∈ placeholderTok j, c ∉ b := by
    intro j hj c hc
    exact not_mem_of_safe b hb c (placeholderTok_props j hj c hc).1
  have hrestore : restoreText (a ++ placeholderTok i ++ b)
      = a ++ (abbreviations.getD i [] ++ ['.']) ++ b := by
    rw [List.append_assoc, restore_append_left a (placeholderTok i ++ b) hUa,
      restore_append_right (placeholderTok i) b hdisj, restore_tok i hi,
      ← List.append_assoc]
  have hne_strip : (!(pyStrip (a ++ (abbreviations.getD i [] ++ ['.']) ++ b)).isEmpty)
      = true := by
    have hdotmem : ('.' : Char) ∈
        pyStrip (a ++ (abbreviations.getD i [] ++ ['.']) ++ b) := by
      apply mem_pyStrip '.' (by decide)
      exact List.mem_append.mpr
        (Or.inl (List.mem_append.mpr (Or.inr (by simp))))
    cases hE : (pyStrip (a ++ (abbreviations.getD i [] ++ ['.']) ++ b)).isEmpty with
    | false => rfl
    | true =>
      exact absurd (List.isEmpty_iff.mp hE) (List.ne_nil_of_mem hdotmem)
  have hmain : split_into_sentences (a ++ placeholderTok i ++ b)
      = [pyStrip (a ++ (abbreviations.getD i [] ++ ['.']) ++ b)] := by
    unfold split_into_sentences
    rw [protect_id _ hdot, splitCoreGo_no_terminal _ [] hterm]
    simp only [List.reverse_nil, List.nil_append, List.map_cons, List.map_nil]
    rw [hrestore, List.filter_cons, List.filter_nil, if_pos hne_strip]
  refine ⟨hmain, ?_⟩
  rw [hmain]
  intro heq
  have heq2 : pyStrip (a ++ (abbreviations.getD i [] ++ ['.']) ++ b)
      = pyStrip (a ++ placeholderTok i ++ b) := by
    injection heq
  have h1 : ('_' : Char) ∈ pyStrip (a ++ placeholderTok i ++ b) := by
    apply mem_pyStrip '_' (by decide)
    exact List.mem_append.mpr
      (Or.inl (List.mem_append.mpr (Or.inr (underscore_mem_placeholderTok i))))
  rw [← heq2] at h1
  have h2 := mem_of_mem_pyStrip '_' h1
  rcases List.mem_append.mp h2 with h | h
  · rcases List.mem_append.mp h with h | h
    · exact hUa h
    · exact abbr_dot_no_underscore i hi h
  · exact not_mem_of_safe b hb '_' (by decide) h

/-- Witness for C10: the token `__ABBR0__` embedded in ordinary text is
replaced by `Mr.` in the emitted unit. -/
theorem placeholder_collision_replaces_token_witness :
    (0 : Nat) < 10
      ∧ (∀ c ∈ ("see ".toList : List Char), safeChar c = true)
      ∧ (∀ c ∈ (" now".toList : List Char), safeChar c = true)
      ∧ (split_into_sentences
            ("see ".toList ++ placeholderTok 0 ++ " now".toList)
          = [pyStrip
              ("see ".toList ++ (abbreviations.getD 0 [] ++ ['.']) ++ " now".toList)]
        ∧ split_into_sentences
            ("see ".toList ++ placeholderTok 0 ++ " now".toList)
          ≠ [pyStrip ("see ".toList ++ placeholderTok 0 ++ " now".toList)]) :=
  ⟨by decide, by decide, by decide,
    placeholder_collision_replaces_token 0 (by decide) ("see ".toList)
      (" now".toList) (by decide) (by decide)⟩
